import Mathlib

/-!
Verification development for the Contextinator file-inspection library
(Rust sources: `core/src/lib.rs`, `core/src/types.rs`, `src/line.rs`,
`core/src/search.rs`, `core/src/directory.rs`).

The Rust code is shallowly embedded: `usize` becomes `Nat`, `i32` becomes
`Int` (no operation in the embedded code can overflow on its `i32` domain,
so the unbounded model agrees with the machine semantics), fallible
functions return `Except`, and the filesystem is an explicit tree value.
External collaborators (the regex engine, the serde codec) are passed as
function parameters, mirroring the spec's treatment of them as external
capabilities.
-/

namespace Contextinator

/-- Error taxonomy of `core/src/types.rs` (`FsReadError`).  Paths are
modelled as component lists. -/
inductive FsReadError where
  | pathNotFound (path : List String)
  | permissionDenied (path : List String)
  | invalidPath (msg : String)
  | ioError (msg : String)
  | invalidLineRange (start : Int) (endv : Int)
  | invalidPattern (msg : String)
  deriving Repr, DecidableEq

/-- `FileEntry` of `core/src/types.rs`. -/
structure FileEntry where
  path : String
  is_dir : Bool
  size : Nat
  modified : Option Nat
  deriving Repr, DecidableEq

/-- `SearchMatch` of `core/src/types.rs`. -/
structure SearchMatch where
  file_path : String
  line_number : Nat
  line_content : String
  context_before : List String
  context_after : List String
  deriving Repr, DecidableEq

/-- `FsReadResult` of `core/src/types.rs`. -/
inductive FsReadResult where
  | line (content : String) (total_lines : Nat) (lines_returned : Nat)
  | directory (entries : List FileEntry) (total_count : Nat)
  | search (matchList : List SearchMatch) (total_matches : Nat)
  deriving Repr, DecidableEq

/-- `FsReadMode` of `core/src/types.rs`. -/
inductive FsReadMode where
  | lineMode (start_line : Option Int) (end_line : Option Int)
  | directoryMode (depth : Nat)
  | searchMode (pattern : String) (context_lines : Nat)
  deriving Repr, DecidableEq

/-- `FsReadParams` of `core/src/types.rs`. -/
structure FsReadParams where
  path : List String
  mode : FsReadMode
  deriving Repr, DecidableEq

/-- The `start_idx` arm of `resolve_line_range` (`src/line.rs`, lines
47-59): `None` gives 0; a non-negative `n` is a 1-based line number
(`0` treated like `1`) clamped with `.min(total_lines)`; a negative `n`
is `total_lines.saturating_sub(|n|)` (Lean's `Nat` subtraction is
saturating). -/
def resolve_start_idx (start : Option Int) (total_lines : Nat) : Nat :=
  match start with
  | none => 0
  | some n =>
      if n ≥ 0 then
        let idx : Nat := if n = 0 then 0 else (n - 1).toNat
        min idx total_lines
      else
        total_lines - n.natAbs

/-- The `end_idx` arm of `resolve_line_range` (`src/line.rs`, lines
61-76): `None` gives `total_lines`; a non-negative `n` is
`(n as usize).min(total_lines)`; a negative `n` gives 0 when
`|n| > total_lines` and `total_lines - |n| + 1` otherwise. -/
def resolve_end_idx (endv : Option Int) (total_lines : Nat) : Nat :=
  match endv with
  | none => total_lines
  | some n =>
      if n ≥ 0 then
        min n.toNat total_lines
      else
        let abs := n.natAbs
        if abs > total_lines then 0 else total_lines - abs + 1

/-- `resolve_line_range` (`src/line.rs`, lines 42-86): compute both
indices, fail with `InvalidLineRange(start.unwrap_or(0), end.unwrap_or(0))`
when `start_idx > end_idx`, succeed with the pair otherwise. -/
def resolve_line_range (start endv : Option Int) (total_lines : Nat) :
    Except FsReadError (Nat × Nat) :=
  let start_idx := resolve_start_idx start total_lines
  let end_idx := resolve_end_idx endv total_lines
  if start_idx > end_idx then
    .error (.invalidLineRange (start.getD 0) (endv.getD 0))
  else
    .ok (start_idx, end_idx)

/-- Spec-side restatement of the `begin` rule (spec §4.1), written from
the spec's words for the refinement claim C2: absent start maps to 0;
a non-negative start is 1-based with 0 and 1 both mapping to index 0 and
otherwise `start - 1` clamped to `total`; a negative start maps to
`total - |start|` saturating at 0. -/
def beginSpec (start : Option Int) (total : Nat) : Nat :=
  match start with
  | none => 0
  | some n =>
      if 0 ≤ n then
        if n = 0 ∨ n = 1 then 0
        else min (n - 1).toNat total
      else
        total - n.natAbs

/-- Spec-side restatement of the `end_excl` rule (spec §4.1), written
from the spec's words for the refinement claim C3: absent end maps to
`total`; a non-negative end is the 1-based inclusive number, so the
exclusive bound is `end` itself clamped to `total`; a negative end gives
bound 0 when `|end| > total` and `total - |end| + 1` otherwise. -/
def endSpec (endv : Option Int) (total : Nat) : Nat :=
  match endv with
  | none => total
  | some n =>
      if 0 ≤ n then min n.toNat total
      else if n.natAbs > total then 0 else total - n.natAbs + 1

/-- `get_context_before` (`core/src/search.rs`, lines 85-88): the Rust
slice `lines[start..index]` with `start = index.saturating_sub(count)`,
rendered as drop-then-take (`Nat` subtraction is saturating). -/
def get_context_before (lines : List String) (index : Nat) (count : Nat) :
    List String :=
  let start := index - count
  (lines.drop start).take (index - start)

/-- `get_context_after` (`core/src/search.rs`, lines 90-93): the Rust
slice `lines[index + 1..end]` with
`end = (index + 1 + count).min(lines.len())`. -/
def get_context_after (lines : List String) (index : Nat) (count : Nat) :
    List String :=
  let endv := min (index + 1 + count) lines.length
  (lines.drop (index + 1)).take (endv - (index + 1))

/-- Spec-side slice notation: the half-open index window `[a, b)` of a
list, written from the spec's words (take the prefix up to `b`, then
drop the first `a` elements) for the refinement claim C6. -/
def sliceSpec (xs : List String) (a b : Nat) : List String :=
  (xs.take b).drop a


/-- Model of a filesystem node.  A file records whether `File::open` /
reading succeeds (`readable`), its lines, its metadata byte size and
optional mtime; a directory records whether reading its entry list
succeeds and its named children in on-disk order.  Directory metadata is
modelled as size 0 with no mtime (the source reports whatever the OS
gives there; no claim depends on it). -/
inductive FsNode where
  | file (readable : Bool) (lines : List String) (size : Nat)
      (modified : Option Nat)
  | dir (readable : Bool) (entries : List (String × FsNode))

/-- Does the node exist as a regular file (`path.is_file()`)? -/
def FsNode.isFile : FsNode → Bool
  | .file .. => true
  | .dir .. => false

/-- Is the node a directory (`path.is_dir()`)? -/
def FsNode.isDir : FsNode → Bool
  | .file .. => false
  | .dir .. => true

/-- Resolve a path (component list) inside the tree: the model of
`path.exists()` (result is `some`) and of reaching the node a path
names. -/
def FsNode.lookup : FsNode → List String → Option FsNode
  | node, [] => some node
  | .file .., _ :: _ => none
  | .dir _ entries, c :: cs =>
      match entries.find? (fun p => p.1 == c) with
      | none => none
      | some p => p.2.lookup cs

/-- Platform path rendering (`Path::display` / `to_string_lossy` on
Linux): components joined with `/`. -/
def pathDisplay (path : List String) : String :=
  String.intercalate "/" path

/-- `read_lines` (`src/line.rs`, lines 6-40): existence check, regular-
file check, open/read (an unreadable file is an `IoError`), then resolve
the range, slice, and join with a single newline. -/
def read_lines (fs : FsNode) (path : List String)
    (start_line end_line : Option Int) :
    Except FsReadError FsReadResult :=
  match fs.lookup path with
  | none => .error (.pathNotFound path)
  | some (.dir ..) =>
      .error (.invalidPath (pathDisplay path ++ " is not a file"))
  | some (.file readable lines _ _) =>
      if readable then
        let total_lines := lines.length
        match resolve_line_range start_line end_line total_lines with
        | .error e => .error e
        | .ok (start_idx, end_idx) =>
            let selected_lines := (lines.drop start_idx).take
              (end_idx - start_idx)
            let content := String.intercalate "\n" selected_lines
            .ok (.line content total_lines selected_lines.length)
      else
        .error (.ioError ("failed to open " ++ pathDisplay path))

/-- Boolean substring search over character lists, the model of Rust's
`str::contains`. -/
def subAux (pat : List Char) : List Char → Bool
  | [] => pat.isPrefixOf []
  | c :: rest => pat.isPrefixOf (c :: rest) || subAux pat rest

/-- `name.contains(pattern)` of `core/src/directory.rs`. -/
def strContainsSub (s pat : String) : Bool :=
  subAux pat.toList s.toList

/-- `name.starts_with('.')` of `core/src/directory.rs`, modelled over
character lists. -/
def strStartsWith (s pre : String) : Bool :=
  pre.toList.isPrefixOf s.toList

/-- `DEFAULT_IGNORE` of `core/src/directory.rs`, lines 5-14. -/
def DEFAULT_IGNORE : List String :=
  [".git", "node_modules", "__pycache__", ".venv", "venv", "target",
   "dist", "build"]

/-- `should_include` (`core/src/directory.rs`, lines 69-90), as a
function of an entry's depth and file name: the root (depth 0) is always
included, hidden names (leading `.`) are excluded, and names containing
any `DEFAULT_IGNORE` pattern are excluded. -/
def should_include (depth : Nat) (name : String) : Bool :=
  if depth = 0 then true
  else if strStartsWith name "." then false
  else if DEFAULT_IGNORE.any (fun pat => strContainsSub name pat) then false
  else true

/-- One item yielded by the modelled `walkdir` traversal: the entry's
file name, its path relative to the walk root (component list, `[]` for
the root itself), its depth, and the node it names. -/
structure WalkEntry where
  name : String
  rel : List String
  depth : Nat
  node : FsNode

mutual

/-- Model of `WalkDir` iteration: depth-first pre-order.  `pred` is the
`filter_entry` predicate (checked on every entry, root included; a
rejected directory is pruned whole), `maxDepth` the `max_depth` option
(`none` = unlimited, the `walkdir` default used by the search engine).
A directory within depth whose entry list cannot be read yields its own
`ok` entry followed by an `error` item, then the walk continues with its
siblings — the behaviour of `walkdir` on a read failure. -/
def walkFrom (pred : Nat → String → Bool) (maxDepth : Option Nat) :
    Nat → String → List String → FsNode →
    List (Except String WalkEntry)
  | depth, name, rel, .file readable lines size modified =>
      if pred depth name then
        [.ok ⟨name, rel, depth, .file readable lines size modified⟩]
      else []
  | depth, name, rel, .dir readable entries =>
      if pred depth name then
        .ok ⟨name, rel, depth, .dir readable entries⟩ ::
        (if match maxDepth with | none => true | some d => depth < d then
          if readable then
            walkChildren pred maxDepth (depth + 1) rel entries
          else
            [.error ("cannot read directory " ++ pathDisplay rel)]
        else [])
      else []

/-- The in-order concatenation of the walks of a directory's children.
Part of the `walkdir` model. -/
def walkChildren (pred : Nat → String → Bool) (maxDepth : Option Nat) :
    Nat → List String → List (String × FsNode) →
    List (Except String WalkEntry)
  | _, _, [] => []
  | depth, rel, (n, child) :: rest =>
      walkFrom pred maxDepth depth n (rel ++ [n]) child ++
      walkChildren pred maxDepth depth rel rest

end

/-- The `FileEntry` built for one surviving walk entry
(`core/src/directory.rs`, lines 43-60): the path relative to the root,
the directory flag, `metadata.len()` and the optional mtime. -/
def mkFileEntry (w : WalkEntry) : FileEntry :=
  { path := pathDisplay w.rel
    is_dir := w.node.isDir
    size := match w.node with
      | .file _ _ size _ => size
      | .dir .. => 0
    modified := match w.node with
      | .file _ _ _ modified => modified
      | .dir .. => none }

/-- The `for entry in walker` loop of `list_directory`
(`core/src/directory.rs`, lines 36-61): the first walk error aborts
(`entry?`), the root itself (`entry.path() == path`, i.e. `rel = []`) is
skipped, every other entry becomes a `FileEntry` in walk order. -/
def processEntries : List (Except String WalkEntry) →
    Except String (List FileEntry)
  | [] => .ok []
  | .error msg :: _ => .error msg
  | .ok w :: rest =>
      if w.rel = [] then processEntries rest
      else
        match processEntries rest with
        | .error msg => .error msg
        | .ok fes => .ok (mkFileEntry w :: fes)

/-- `list_directory` (`core/src/directory.rs`, lines 16-67): existence
and directory checks, `max_depth = if depth == 0 { 1 } else { depth }`,
walk with `filter_entry(should_include)`, abort on the first traversal
error (surfaced as `IoError`), and report entries with
`total_count = entries.len()`. -/
def list_directory (fs : FsNode) (path : List String) (depth : Nat) :
    Except FsReadError FsReadResult :=
  match fs.lookup path with
  | none => .error (.pathNotFound path)
  | some (.file ..) =>
      .error (.invalidPath (pathDisplay path ++ " is not a directory"))
  | some (.dir readable entries) =>
      let max_depth := if depth = 0 then 1 else depth
      let walk := walkFrom should_include (some max_depth) 0
        ((path.getLast?).getD "") [] (.dir readable entries)
      match processEntries walk with
      | .error msg => .error (.ioError msg)
      | .ok fes => .ok (.directory fes fes.length)

/-- `search_file` (`core/src/search.rs`, lines 33-63): open and read the
file (failure is an `IoError`), then emit a `SearchMatch` for every line
the compiled pattern matches, with 1-based line numbers and the two
context windows.  The compiled regex is the external collaborator
`regex::Regex::is_match`, passed as a predicate. -/
def search_file (regex : String → Bool) (context_lines : Nat)
    (path : List String) (node : FsNode) :
    Except FsReadError (List SearchMatch) :=
  match node with
  | .dir .. =>
      .error (.ioError ("cannot read " ++ pathDisplay path))
  | .file readable lines _ _ =>
      if readable then
        .ok ((lines.enum.filter (fun p => regex p.2)).map (fun p =>
          { file_path := pathDisplay path
            line_number := p.1 + 1
            line_content := p.2
            context_before := get_context_before lines p.1 context_lines
            context_after := get_context_after lines p.1 context_lines }))
      else
        .error (.ioError ("failed to open " ++ pathDisplay path))

/-- `search_directory` (`core/src/search.rs`, lines 65-83): walk the
whole subtree with no depth limit and no entry filter, drop walk errors
(`filter_map(|e| e.ok())`), keep regular files, and concatenate the
matches of every file whose read succeeds (`if let Ok(matches)`),
skipping unreadable files.  The function itself always returns `Ok`. -/
def search_directory (regex : String → Bool) (context_lines : Nat)
    (path : List String) (node : FsNode) :
    Except FsReadError (List SearchMatch) :=
  let walk := walkFrom (fun _ _ => true) none 0 ((path.getLast?).getD "")
    [] node
  .ok (((walk.filterMap Except.toOption).filter
      (fun w => w.node.isFile)).filterMap
        (fun w =>
          (search_file regex context_lines (path ++ w.rel)
            w.node).toOption)).flatten

/-- `search_pattern` (`core/src/search.rs`, lines 8-31): existence
check, pattern compilation (failure is `InvalidPattern`; the compiler is
the external `Regex::new`, passed as a function), then file or directory
search and the `total_matches` count. -/
def search_pattern (compile : String → Except String (String → Bool))
    (fs : FsNode) (path : List String) (pattern : String)
    (context_lines : Nat) : Except FsReadError FsReadResult :=
  match fs.lookup path with
  | none => .error (.pathNotFound path)
  | some node =>
      match compile pattern with
      | .error msg => .error (.invalidPattern msg)
      | .ok regex =>
          match
            (if node.isFile then
              search_file regex context_lines path node
            else
              search_directory regex context_lines path node) with
          | .error e => .error e
          | .ok ms => .ok (.search ms ms.length)

/-- The `Display` impl for `FsReadError` (`core/src/types.rs`, lines
81-92), used by the Python bindings' `e.to_string()`. -/
def FsReadError.toString : FsReadError → String
  | .pathNotFound p => "Path not found: " ++ pathDisplay p
  | .permissionDenied p => "Permission denied: " ++ pathDisplay p
  | .invalidPath s => "Invalid path: " ++ s
  | .ioError m => "IO error: " ++ m
  | .invalidLineRange s e =>
      "Invalid line range: " ++ ToString.toString s ++ " to " ++
        ToString.toString e
  | .invalidPattern s => "Invalid pattern: " ++ s

/-- `fs_read` (`core/src/lib.rs`, lines 11-23): dispatch on the mode
tag. -/
def fs_read (compile : String → Except String (String → Bool))
    (fs : FsNode) (params : FsReadParams) :
    Except FsReadError FsReadResult :=
  match params.mode with
  | .lineMode start_line end_line =>
      read_lines fs params.path start_line end_line
  | .directoryMode depth => list_directory fs params.path depth
  | .searchMode pattern context_lines =>
      search_pattern compile fs params.path pattern context_lines

/-- The Python exception raised by the bindings: `ValueError` for a
request that fails to decode, `RuntimeError` for an operation or
serialization failure (`core/src/lib.rs`). -/
inductive PyErr where
  | valueError (msg : String)
  | runtimeError (msg : String)
  deriving Repr, DecidableEq

/-- `fs_read_batch_py` (`core/src/lib.rs`, lines 65-86): for each
operation in order, decode it (`serde_json::from_str`, the external
codec passed as `decode`; failure raises `ValueError` for the whole
batch), run `fs_read` (failure raises `RuntimeError` carrying the
error's `Display` text for the whole batch), and re-encode the result
(`serde_json::to_string`, passed as `encode`; failure raises
`RuntimeError`); each `?` aborts the loop at the first failure. -/
def fs_read_batch_py (compile : String → Except String (String → Bool))
    (fs : FsNode) (decode : String → Except String FsReadParams)
    (encode : FsReadResult → Except String String) :
    List String → Except PyErr (List String)
  | [] => .ok []
  | op :: rest =>
      match decode op with
      | .error e => .error (.valueError e)
      | .ok params =>
          match fs_read compile fs params with
          | .error e => .error (.runtimeError e.toString)
          | .ok result =>
              match encode result with
              | .error e => .error (.runtimeError e)
              | .ok rj =>
                  match fs_read_batch_py compile fs decode encode rest with
                  | .error e => .error e
                  | .ok rs => .ok (rj :: rs)

/-- Spec-side single-request pipeline for the refinement claim C1:
decode, execute, encode, with the error each stage raises. -/
def processOneSpec (compile : String → Except String (String → Bool))
    (fs : FsNode) (decode : String → Except String FsReadParams)
    (encode : FsReadResult → Except String String) (op : String) :
    Except PyErr String :=
  match decode op with
  | .error e => .error (.valueError e)
  | .ok params =>
      match fs_read compile fs params with
      | .error e => .error (.runtimeError e.toString)
      | .ok result =>
          match encode result with
          | .error e => .error (.runtimeError e)
          | .ok rj => .ok rj

/-- A one-file filesystem used as concrete input for the line reader. -/
def exampleFs : FsNode :=
  .dir true [("f.txt", .file true ["a", "b", "c", "d", "e"] 10 none)]

/-- The filesystem for the batch scenarios: a single readable file. -/
def batchFs : FsNode :=
  .dir true [("ok.txt", .file true ["x"] 1 none)]

/-- Concrete request codec for the batch scenarios: `"A"` decodes to a
`Line` read of a missing path, `"B"` to a `Line` read of the existing
file; anything else is a decode error. -/
def batchDecode : String → Except String FsReadParams := fun s =>
  if s = "A" then .ok ⟨["missing.txt"], .lineMode none none⟩
  else if s = "B" then .ok ⟨["ok.txt"], .lineMode none none⟩
  else .error "invalid json"

/-- Concrete result serializer for the batch scenarios (total, as
`serde_json::to_string` is on these result types). -/
def batchEncode : FsReadResult → Except String String :=
  fun _ => .ok "encoded"

/-- Concrete regex compiler for the batch scenarios (never consulted:
the requests are all `Line` mode). -/
def batchCompile : String → Except String (String → Bool) :=
  fun _ => .error "unused"

/-- A directory tree for the search scenario: one unreadable file and
one readable sibling containing a match. -/
def searchTree : FsNode :=
  .dir true [("bad.txt", .file false ["TODO secret"] 1 none),
             ("good.txt", .file true ["hello", "TODO fix", "bye"] 1 none)]

/-- A concrete compiled pattern: any line containing `TODO`. -/
def todoRegex : String → Bool := fun s => strContainsSub s "TODO"

/-- A directory tree for the listing scenario: a normal subdirectory, a
hidden one, and a plain file. -/
def listFs : FsNode :=
  .dir true [("src", .dir true []), (".git", .dir true []),
             ("a.txt", .file true [] 3 (some 9))]

/-- C2 (amended): the resolver's `begin` follows the spec's rule, and the
last-k-lines idiom `resolve(Some(-k), None, total) = (total-k, total)`
holds for `1 ≤ k ≤ total`. -/
theorem resolve_begin_follows_spec :
    (∀ (start : Option Int) (total : Nat),
        resolve_start_idx start total = beginSpec start total) ∧
    (∀ (k : Int) (total : Nat), 1 ≤ k → k ≤ (total : Int) →
        resolve_line_range (some (-k)) none total =
          .ok (total - k.toNat, total)) := by
  constructor
  · intro start total
    match start with
    | none => rfl
    | some n =>
      simp only [resolve_start_idx, beginSpec]
      by_cases h0 : n ≥ 0
      · simp only [h0, if_pos]
        by_cases h1 : n = 0
        · subst h1; simp
        · by_cases h2 : n = 1
          · subst h2; simp
          · simp [h1, h2]
      · simp [h0, le_of_not_le]
  · intro k total hk1 hk2
    have hneg : ¬ (-k ≥ 0) := by omega
    have habs : (-k).natAbs = k.toNat := by omega
    have hle : k.toNat ≤ total := by omega
    simp only [resolve_line_range, resolve_start_idx, resolve_end_idx,
      hneg, if_neg, habs]
    have : total - k.toNat ≤ total := Nat.sub_le _ _
    simp [this, Nat.not_lt.mpr this]

/-- Witness for C2's amended claim at `k = 2`, `total = 5`. -/
theorem resolve_begin_follows_spec_witness :
    resolve_line_range (some (-2)) none 5 = .ok (3, 5) := by
  have h := resolve_begin_follows_spec.2 2 5 (by decide) (by decide)
  simpa using h

/-- C2 as stated is false at `k = 0`, `total = 5`: `0 ≤ 0 ≤ 5`, yet
`resolve(Some(-0), None, 5)` yields `(0, 5)`, not `(total - k, total) =
(5, 5)`. -/
theorem resolve_begin_claim_counterexample :
    (0 : Int) ≤ 0 ∧ (0 : Int) ≤ (5 : Nat) ∧
    resolve_line_range (some (-(0 : Int))) none 5 = .ok (0, 5) ∧
    ((5 : Nat) - (0 : Int).toNat, (5 : Nat)) ≠ ((0 : Nat), (5 : Nat)) := by
  refine ⟨by decide, by decide, by rfl, by decide⟩

/-- C3: the resolver's exclusive end bound follows the spec's rule, and
`resolve(None, None, total) = (0, total)` for every `total`. -/
theorem resolve_end_follows_spec :
    (∀ (endv : Option Int) (total : Nat),
        resolve_end_idx endv total = endSpec endv total) ∧
    (∀ total : Nat, resolve_line_range none none total = .ok (0, total)) := by
  constructor
  · intro endv total
    match endv with
    | none => rfl
    | some n => simp only [resolve_end_idx, endSpec]
  · intro total
    simp [resolve_line_range, resolve_start_idx, resolve_end_idx]

/-- The resolved start index never exceeds the total line count. -/
theorem resolve_start_idx_le_total (start : Option Int) (total : Nat) :
    resolve_start_idx start total ≤ total := by
  match start with
  | none => exact Nat.zero_le _
  | some n =>
    simp only [resolve_start_idx]
    split
    · exact min_le_right _ _
    · exact Nat.sub_le _ _

/-- The resolved exclusive end index never exceeds the total line count. -/
theorem resolve_end_idx_le_total (endv : Option Int) (total : Nat) :
    resolve_end_idx endv total ≤ total := by
  match endv with
  | none => exact le_refl _
  | some n =>
    simp only [resolve_end_idx]
    split
    · exact min_le_right _ _
    · next h =>
      have h1 : 1 ≤ n.natAbs := by omega
      split <;> omega

/-- C4: the resolver fails, always with `InvalidLineRange`, exactly when
the computed begin exceeds the computed exclusive end; the error carries
the original, unresolved start and end values (both necessarily present);
and concretely `start=10, end=2` on a 5-line file yields
`InvalidLineRange(10, 2)`. -/
theorem resolve_fails_iff_crossed :
    (∀ (start endv : Option Int) (total : Nat),
      ((∃ e, resolve_line_range start endv total = .error e) ↔
          resolve_end_idx endv total < resolve_start_idx start total) ∧
      (∀ e, resolve_line_range start endv total = .error e →
          ∃ a b, start = some a ∧ endv = some b ∧
            e = .invalidLineRange a b)) ∧
    resolve_line_range (some 10) (some 2) 5 =
      .error (.invalidLineRange 10 2) := by
  refine ⟨fun start endv total => ⟨?_, ?_⟩, by rfl⟩
  · constructor
    · rintro ⟨e, he⟩
      simp only [resolve_line_range] at he
      by_contra hcross
      rw [if_neg (by omega)] at he
      exact Except.noConfusion he
    · intro hlt
      refine ⟨.invalidLineRange (start.getD 0) (endv.getD 0), ?_⟩
      simp only [resolve_line_range]
      rw [if_pos (by omega)]
  · intro e he
    simp only [resolve_line_range] at he
    split at he
    · next hcross =>
      match hs : start with
      | none =>
        simp [resolve_start_idx] at hcross
      | some a =>
        match hv : endv with
        | none =>
          simp only [resolve_end_idx] at hcross
          exact absurd (resolve_start_idx_le_total (some a) total)
            (by omega)
        | some b =>
          refine ⟨a, b, rfl, rfl, ?_⟩
          simpa using (Except.error.inj he).symm
    · exact Except.noConfusion he

/-- C5: whenever the resolver succeeds the result satisfies
`begin ≤ end_excl ≤ total`, and for `total = 0` it always succeeds with
`(0, 0)`. -/
theorem resolve_ok_bounds :
    (∀ (start endv : Option Int) (total b e : Nat),
        resolve_line_range start endv total = .ok (b, e) →
        b ≤ e ∧ e ≤ total) ∧
    (∀ start endv : Option Int,
        resolve_line_range start endv 0 = .ok (0, 0)) := by
  constructor
  · intro start endv total b e hok
    simp only [resolve_line_range] at hok
    split at hok
    · exact Except.noConfusion hok
    · next hle =>
      obtain ⟨hb, he⟩ := Prod.mk.injEq .. ▸ (Except.ok.inj hok)
      subst hb; subst he
      exact ⟨by omega, resolve_end_idx_le_total endv total⟩
  · intro start endv
    have hs : resolve_start_idx start 0 = 0 :=
      Nat.le_zero.mp (resolve_start_idx_le_total start 0)
    have he2 : resolve_end_idx endv 0 = 0 :=
      Nat.le_zero.mp (resolve_end_idx_le_total endv 0)
    simp [resolve_line_range, hs, he2]

/-- Witness for C5 at `start=2, end=4, total=5`, which resolves to
`(1, 4)`. -/
theorem resolve_ok_bounds_witness : (1 : Nat) ≤ 4 ∧ (4 : Nat) ≤ 5 :=
  resolve_ok_bounds.1 (some 2) (some 4) 5 1 4 (by rfl)

/-- C10: if either endpoint is absent the resolver always succeeds, so
`InvalidLineRange` (and with it the `unwrap_or(0)` placeholder) can only
arise when both a start and an end value were supplied. -/
theorem resolve_absent_always_ok :
    ∀ (start endv : Option Int) (total : Nat),
      (start = none ∨ endv = none) →
      resolve_line_range start endv total =
        .ok (resolve_start_idx start total, resolve_end_idx endv total) := by
  intro start endv total h
  have hok : ¬ (resolve_end_idx endv total < resolve_start_idx start total) := by
    rcases h with h | h
    · subst h
      simp [resolve_start_idx]
    · subst h
      simp only [resolve_end_idx]
      exact Nat.not_lt.mpr (resolve_start_idx_le_total start total)
  simp only [resolve_line_range]
  rw [if_neg (by omega)]

/-- Witness for C10 at `start=none, end=3, total=7`. -/
theorem resolve_absent_always_ok_witness :
    resolve_line_range none (some 3) 7 = .ok (0, 3) := by
  have h := resolve_absent_always_ok none (some 3) 7 (Or.inl rfl)
  simpa using h

/-- C6: for an in-bounds match index the context windows are exactly the
spec's slices `[max(0, index-count), index)` and
`[index+1, min(length, index+1+count))` (in `Nat`, `index - count` is
that truncated difference), and they are empty at the respective file
boundaries. -/
theorem context_window_spec :
    ∀ (lines : List String) (index count : Nat), index < lines.length →
      get_context_before lines index count =
        sliceSpec lines (index - count) index ∧
      get_context_after lines index count =
        sliceSpec lines (index + 1) (min (index + 1 + count) lines.length) ∧
      (index = 0 → get_context_before lines index count = []) ∧
      (index = lines.length - 1 →
        get_context_after lines index count = []) := by
  intro lines index count hidx
  refine ⟨?_, ?_, ?_, ?_⟩
  · rw [get_context_before, sliceSpec, List.drop_take]
  · rw [get_context_after, sliceSpec, List.drop_take]
  · intro h0
    subst h0
    simp [get_context_before]
  · intro hlast
    have hlen : index + 1 = lines.length := by omega
    simp [get_context_after, hlen]

/-- Witness for C6 on `["a", "b", "c"]`, match index 1, one context
line. -/
theorem context_window_spec_witness :
    get_context_before ["a", "b", "c"] 1 1 = sliceSpec ["a", "b", "c"] 0 1 ∧
    get_context_after ["a", "b", "c"] 1 1 =
      sliceSpec ["a", "b", "c"] 2 (min 3 3) := by
  have h := context_window_spec ["a", "b", "c"] 1 1 (by decide)
  exact ⟨h.1, h.2.1⟩

/-- On success the resolver's bounds are ordered and within the total. -/
theorem resolve_ok_le (start endv : Option Int) (total b e : Nat)
    (h : resolve_line_range start endv total = .ok (b, e)) :
    b ≤ e ∧ e ≤ total := by
  simp only [resolve_line_range] at h
  split at h
  · exact Except.noConfusion h
  · next hle =>
    obtain ⟨hb, he⟩ := Prod.mk.injEq .. ▸ (Except.ok.inj h)
    subst hb; subst he
    exact ⟨by omega, resolve_end_idx_le_total endv total⟩

/-- C7: every successful `Line` read returns the selected slice joined
with a single newline, the file's total line count, and
`lines_returned = end_idx - start_idx ≤ total_lines`; concretely, lines
`["a","b","c","d","e"]` with `start=2, end=4` give `"b\nc\nd"`,
`total_lines=5`, `lines_returned=3`. -/
theorem read_lines_result_spec :
    (∀ (fs : FsNode) (path : List String) (s e : Option Int)
        (c : String) (t r : Nat),
      read_lines fs path s e = .ok (.line c t r) →
      ∃ (rd : Bool) (lines : List String) (sz : Nat) (md : Option Nat)
        (b en : Nat),
        fs.lookup path = some (.file rd lines sz md) ∧
        resolve_line_range s e lines.length = .ok (b, en) ∧
        c = String.intercalate "\n" (sliceSpec lines b en) ∧
        t = lines.length ∧ r = en - b ∧ r ≤ t) ∧
    read_lines exampleFs ["f.txt"] (some 2) (some 4) =
      .ok (.line "b\nc\nd" 5 3) := by
  constructor
  · intro fs path s e c t r hok
    simp only [read_lines] at hok
    split at hok
    · exact Except.noConfusion hok
    · exact Except.noConfusion hok
    · next readable lines sz md hlk =>
      split at hok
      · next hrd =>
        split at hok
        · exact Except.noConfusion hok
        · next b en hres =>
          obtain ⟨hc, ht, hr⟩ := FsReadResult.line.injEq .. ▸
            (Except.ok.inj hok)
          obtain ⟨hbe, hent⟩ := resolve_ok_le s e lines.length b en hres
          subst hrd
          refine ⟨true, lines, sz, md, b, en, hlk, hres, ?_, ht.symm, ?_, ?_⟩
          · rw [← hc, sliceSpec, List.drop_take]
          · rw [← hr]
            simp only [List.length_take, List.length_drop]
            omega
          · rw [← hr, ← ht]
            simp only [List.length_take, List.length_drop]
            omega
      · exact Except.noConfusion hok
  · rfl

/-- Witness for C7 at the concrete five-line file. -/
theorem read_lines_result_spec_witness :
    ∃ (rd : Bool) (lines : List String) (sz : Nat) (md : Option Nat)
      (b en : Nat),
      FsNode.lookup exampleFs ["f.txt"] = some (.file rd lines sz md) ∧
      resolve_line_range (some 2) (some 4) lines.length = .ok (b, en) ∧
      "b\nc\nd" = String.intercalate "\n" (sliceSpec lines b en) ∧
      5 = lines.length ∧ 3 = en - b ∧ 3 ≤ 5 :=
  read_lines_result_spec.1 exampleFs ["f.txt"] (some 2) (some 4)
    "b\nc\nd" 5 3 (by rfl)

/-- C1 (amended): the batch entry point runs the per-request pipeline
decode → execute → encode sequentially and stops at the first error of
any of the three stages, returning that single error; only when every
request succeeds does it return the same-length ordered list of each
request's encoded result. -/
theorem fs_read_batch_first_error :
    ∀ (compile : String → Except String (String → Bool)) (fs : FsNode)
      (decode : String → Except String FsReadParams)
      (encode : FsReadResult → Except String String) (ops : List String),
      (∀ rs, fs_read_batch_py compile fs decode encode ops = .ok rs →
        rs.length = ops.length ∧
        ∀ i, i < ops.length → ∃ op r, ops[i]? = some op ∧
          rs[i]? = some r ∧
          processOneSpec compile fs decode encode op = .ok r) ∧
      (∀ e, fs_read_batch_py compile fs decode encode ops = .error e →
        ∃ i op, i < ops.length ∧ ops[i]? = some op ∧
          processOneSpec compile fs decode encode op = .error e ∧
          ∀ j op', j < i → ops[j]? = some op' →
            (processOneSpec compile fs decode encode op').isOk = true) := by
  intro compile fs decode encode ops
  induction ops with
  | nil =>
    constructor
    · intro rs h
      simp only [fs_read_batch_py] at h
      rw [← Except.ok.inj h]
      exact ⟨rfl, by intro i hi; exact absurd hi (by simp)⟩
    · intro e h
      exact Except.noConfusion h
  | cons op rest ih =>
    constructor
    · intro rs h
      simp only [fs_read_batch_py] at h
      split at h
      · exact Except.noConfusion h
      · next params hd =>
        split at h
        · exact Except.noConfusion h
        · next result hr =>
          split at h
          · exact Except.noConfusion h
          · next rj he =>
            split at h
            · exact Except.noConfusion h
            · next rs' hrest =>
              obtain ⟨hlen, hidx⟩ := ih.1 rs' hrest
              rw [← Except.ok.inj h]
              refine ⟨by simp [hlen], ?_⟩
              intro i hi
              match i with
              | 0 =>
                refine ⟨op, rj, by simp, by simp, ?_⟩
                simp [processOneSpec, hd, hr, he]
              | i + 1 =>
                obtain ⟨op', r', ho, hrv, hp⟩ := hidx i (by
                  simp only [List.length_cons] at hi; omega)
                exact ⟨op', r', by simpa using ho, by simpa using hrv, hp⟩
    · intro e h
      simp only [fs_read_batch_py] at h
      split at h
      · next msg hd =>
        refine ⟨0, op, by simp, by simp, ?_, by omega⟩
        rw [← Except.error.inj h]
        simp [processOneSpec, hd]
      · next params hd =>
        split at h
        · next err hr =>
          refine ⟨0, op, by simp, by simp, ?_, by omega⟩
          rw [← Except.error.inj h]
          simp [processOneSpec, hd, hr]
        · next result hr =>
          split at h
          · next msg he =>
            refine ⟨0, op, by simp, by simp, ?_, by omega⟩
            rw [← Except.error.inj h]
            simp [processOneSpec, hd, hr, he]
          · next rj he =>
            split at h
            · next e' hrest =>
              obtain ⟨i, op', hi, ho, herr, hpre⟩ := ih.2 e' hrest
              refine ⟨i + 1, op', by simpa using hi, by simpa using ho,
                ?_, ?_⟩
              · rw [← Except.error.inj h]; exact herr
              · intro j opj hj hoj
                match j with
                | 0 =>
                  simp only [List.getElem?_cons_zero] at hoj
                  rw [← Option.some.inj hoj]
                  simp [processOneSpec, hd, hr, he, Except.isOk,
                    Except.toBool]
                | j + 1 =>
                  exact hpre j opj (by omega) (by simpa using hoj)
            · exact Except.noConfusion h

/-- Witness for C1's amended claim on the singleton batch `["B"]`, whose
one request succeeds. -/
theorem fs_read_batch_first_error_witness :
    (["encoded"] : List String).length = (["B"] : List String).length ∧
    ∀ i, i < (["B"] : List String).length →
      ∃ op r, (["B"] : List String)[i]? = some op ∧
        (["encoded"] : List String)[i]? = some r ∧
        processOneSpec batchCompile batchFs batchDecode batchEncode op =
          .ok r :=
  (fs_read_batch_first_error batchCompile batchFs batchDecode batchEncode
    ["B"]).1 ["encoded"] (by rfl)

/-- C1 as stated is false on the code: in the batch `["A", "B"]` both
requests decode successfully and request `"B"` succeeds on its own, yet
the batch aborts with the runtime error of request `"A"` instead of
returning a two-element sequence of per-request results/errors. -/
theorem fs_read_batch_claim_counterexample :
    (batchDecode "A").isOk = true ∧ (batchDecode "B").isOk = true ∧
    (fs_read batchCompile batchFs
      ⟨["ok.txt"], .lineMode none none⟩).isOk = true ∧
    fs_read_batch_py batchCompile batchFs batchDecode batchEncode
      ["A", "B"] = .error (.runtimeError "Path not found: missing.txt") :=
  ⟨rfl, rfl, rfl, rfl⟩

/-- A successful `processEntries` means the walk contained no error
item. -/
theorem processEntries_ok_no_error :
    ∀ (l : List (Except String WalkEntry)) (fes : List FileEntry),
      processEntries l = .ok fes → ∀ msg, Except.error msg ∉ l := by
  intro l
  induction l with
  | nil =>
    intro fes _ msg hm
    simp at hm
  | cons x rest ih =>
    intro fes h msg hm
    match x with
    | .error m => exact Except.noConfusion h
    | .ok w =>
      rcases List.mem_cons.mp hm with hx | hm'
      · exact Except.noConfusion hx
      · simp only [processEntries] at h
        split at h
        · exact ih fes h msg hm'
        · split at h
          · exact Except.noConfusion h
          · next fes' hrest => exact ih fes' hrest msg hm'

/-- Every entry reported by `processEntries` stems from a non-root `ok`
walk item. -/
theorem processEntries_mem :
    ∀ (l : List (Except String WalkEntry)) (fes : List FileEntry),
      processEntries l = .ok fes →
      ∀ fe ∈ fes, ∃ w : WalkEntry, Except.ok w ∈ l ∧ w.rel ≠ [] ∧
        fe = mkFileEntry w := by
  intro l
  induction l with
  | nil =>
    intro fes h fe hfe
    simp only [processEntries] at h
    rw [← Except.ok.inj h] at hfe
    simp at hfe
  | cons x rest ih =>
    intro fes h fe hfe
    match x with
    | .error m => exact Except.noConfusion h
    | .ok w =>
      simp only [processEntries] at h
      split at h
      · obtain ⟨w', hw', hrel, hfe'⟩ := ih fes h fe hfe
        exact ⟨w', List.mem_cons_of_mem _ hw', hrel, hfe'⟩
      · next hroot =>
        split at h
        · exact Except.noConfusion h
        · next fes' hrest =>
          rw [← Except.ok.inj h] at hfe
          rcases List.mem_cons.mp hfe with hhead | htail
          · exact ⟨w, List.mem_cons_self .., hroot, hhead⟩
          · obtain ⟨w', hw', hrel, hfe'⟩ := ih fes' hrest fe htail
            exact ⟨w', List.mem_cons_of_mem _ hw', hrel, hfe'⟩

mutual

/-- Invariant of the walk: every `ok` entry passed the filter predicate
at its own depth and name, sits at or below the call's depth, and is
either the call's root or has a relative path extending the root's and
ending in its own name. -/
theorem walk_ok_inv (pred : Nat → String → Bool) (md : Option Nat)
    (d : Nat) (name : String) (rel : List String) (node : FsNode)
    (w : WalkEntry) (h : Except.ok w ∈ walkFrom pred md d name rel node) :
    pred w.depth w.name = true ∧ d ≤ w.depth ∧
      (w.depth = d ∧ w.rel = rel ∧ w.name = name ∨
        d < w.depth ∧ ∃ r : List String, w.rel = rel ++ (r ++ [w.name])) := by
  cases node with
  | file rd ls sz mo =>
    simp only [walkFrom] at h
    split at h
    · next hpred =>
      rw [List.mem_singleton] at h
      obtain rfl := Except.ok.inj h
      exact ⟨hpred, le_refl d, Or.inl ⟨rfl, rfl, rfl⟩⟩
    · simp at h
  | dir rd entries =>
    simp only [walkFrom] at h
    split at h
    · next hpred =>
      rcases List.mem_cons.mp h with hx | hrest
      · obtain rfl := Except.ok.inj hx
        exact ⟨hpred, le_refl d, Or.inl ⟨rfl, rfl, rfl⟩⟩
      · split at hrest
        · split at hrest
          · obtain ⟨h1, h2, r, hr⟩ :=
              walkChildren_ok_inv pred md (d + 1) rel entries w hrest
            exact ⟨h1, by omega, Or.inr ⟨by omega, r, hr⟩⟩
          · simp at hrest
        · simp at hrest
    · simp at h

/-- Companion invariant for the walk of a child list. -/
theorem walkChildren_ok_inv (pred : Nat → String → Bool) (md : Option Nat)
    (d : Nat) (rel : List String) (entries : List (String × FsNode))
    (w : WalkEntry) (h : Except.ok w ∈ walkChildren pred md d rel entries) :
    pred w.depth w.name = true ∧ d ≤ w.depth ∧
      ∃ r : List String, w.rel = rel ++ (r ++ [w.name]) := by
  cases entries with
  | nil => simp [walkChildren] at h
  | cons p rest =>
    obtain ⟨n, child⟩ := p
    simp only [walkChildren] at h
    rcases List.mem_append.mp h with h1 | h2
    · obtain ⟨hp, hd, hcase⟩ := walk_ok_inv pred md d n (rel ++ [n]) child w h1
      rcases hcase with ⟨hdep, hrel, hname⟩ | ⟨hlt, r, hrel⟩
      · exact ⟨hp, hd, [], by rw [hrel, hname]; simp⟩
      · exact ⟨hp, hd, n :: r, by rw [hrel]; simp⟩
    · exact walkChildren_ok_inv pred md d rel rest w h2

end

/-- C8: a directory-wide search never fails — concretely, with an
unreadable `bad.txt` the matches of the readable sibling are still
returned — whereas a traversal error during a directory listing aborts
the whole call with an `IoError`. -/
theorem search_skips_listing_aborts :
    (∀ (regex : String → Bool) (cl : Nat) (path : List String)
        (node : FsNode),
      ∃ ms, search_directory regex cl path node = .ok ms) ∧
    search_directory todoRegex 1 ["root"] searchTree =
      .ok [{ file_path := "root/good.txt", line_number := 2,
             line_content := "TODO fix", context_before := ["hello"],
             context_after := ["bye"] }] ∧
    (∀ (fs : FsNode) (path : List String) (depth : Nat)
        (readable : Bool) (entries : List (String × FsNode)) (msg : String),
      fs.lookup path = some (.dir readable entries) →
      Except.error msg ∈ walkFrom should_include
        (some (if depth = 0 then 1 else depth)) 0
        ((path.getLast?).getD "") [] (.dir readable entries) →
      ∃ m, list_directory fs path depth = .error (.ioError m)) := by
  refine ⟨fun regex cl path node => ⟨_, rfl⟩, by rfl, ?_⟩
  intro fs path depth readable entries msg hlk hmem
  cases hpe : processEntries (walkFrom should_include
      (some (if depth = 0 then 1 else depth)) 0
      ((path.getLast?).getD "") [] (.dir readable entries)) with
  | error m =>
    refine ⟨m, ?_⟩
    simp only [list_directory, hlk]
    rw [hpe]
  | ok fes =>
    exact absurd hmem (processEntries_ok_no_error _ fes hpe msg)

/-- Witness for C8's listing half: a root directory whose entry list
cannot be read aborts the listing. -/
theorem search_skips_listing_aborts_witness :
    ∃ m, list_directory (.dir false []) [] 0 = .error (.ioError m) := by
  refine search_skips_listing_aborts.2.2 (.dir false []) [] 0 false []
    "cannot read directory " (by rfl) ?_
  have hw : walkFrom should_include (some (if 0 = 0 then 1 else 0)) 0
      (([] : List String).getLast?.getD "") [] (.dir false []) =
      [.ok ⟨"", [], 0, .dir false []⟩, .error "cannot read directory "] :=
    by rfl
  rw [hw]
  exact List.mem_cons_of_mem _ (List.mem_singleton.mpr rfl)

/-- C9: every entry of a directory listing, at any depth, stems from a
non-root walk item whose own file name does not start with `.` and does
not contain any of `node_modules`, `.git`, `target`, `dist`, `build`;
the entry's reported relative path renders that item's non-empty
relative component list (so the root, whose list is empty, is never
reported), and `total_count` equals the number of entries. -/
theorem listing_excludes_hidden_and_ignored :
    ∀ (fs : FsNode) (path : List String) (depth : Nat)
      (entries : List FileEntry) (cnt : Nat),
      list_directory fs path depth = .ok (.directory entries cnt) →
      cnt = entries.length ∧
      ∀ fe ∈ entries, ∃ w : WalkEntry, fe = mkFileEntry w ∧
        fe.path = pathDisplay w.rel ∧ w.rel ≠ [] ∧
        w.rel.getLast? = some w.name ∧
        strStartsWith w.name "." = false ∧
        ∀ pat ∈ ([".git", "node_modules", "target", "dist", "build"] :
          List String), strContainsSub w.name pat = false := by
  intro fs path depth entries cnt h
  simp only [list_directory] at h
  split at h
  · exact Except.noConfusion h
  · exact Except.noConfusion h
  · next readable dirEntries hlk =>
    split at h
    · exact Except.noConfusion h
    · next fes hpe =>
      obtain ⟨hent, hcnt⟩ := FsReadResult.directory.injEq .. ▸
        (Except.ok.inj h)
      subst hent
      refine ⟨hcnt.symm, ?_⟩
      intro fe hfe
      obtain ⟨w, hwmem, hrel, hfew⟩ := processEntries_mem _ _ hpe fe hfe
      obtain ⟨hpred, _, hcase⟩ := walk_ok_inv _ _ _ _ _ _ _ hwmem
      have hdep : w.depth ≠ 0 := by
        rcases hcase with ⟨_, hwrel, _⟩ | ⟨hlt, _⟩
        · exact absurd hwrel hrel
        · omega
      have hlast : w.rel.getLast? = some w.name := by
        rcases hcase with ⟨_, hwrel, _⟩ | ⟨_, r, hwrel⟩
        · exact absurd hwrel hrel
        · rw [hwrel]
          simp only [List.nil_append, ← List.append_assoc]
          exact List.getLast?_concat _
      simp only [should_include, if_neg hdep] at hpred
      have hhid : strStartsWith w.name "." = false := by
        by_contra hc
        rw [Bool.not_eq_false] at hc
        rw [if_pos hc] at hpred
        exact Bool.noConfusion hpred
      rw [if_neg (by rw [hhid]; exact Bool.false_ne_true)] at hpred
      have hany : DEFAULT_IGNORE.any
          (fun pat => strContainsSub w.name pat) = false := by
        by_contra hc
        rw [Bool.not_eq_false] at hc
        rw [if_pos hc] at hpred
        exact Bool.noConfusion hpred
      rw [List.any_eq_false] at hany
      refine ⟨w, hfew, by rw [hfew]; rfl, hrel, hlast, hhid, ?_⟩
      intro pat hpat
      have hmem : pat ∈ DEFAULT_IGNORE := by
        fin_cases hpat <;> decide
      simpa using hany pat hmem

/-- Witness for C9 on a tree with a hidden `.git` directory: only `src`
and `a.txt` are listed. -/
theorem listing_excludes_hidden_and_ignored_witness :
    2 = ([{ path := "src", is_dir := true, size := 0,
            modified := none },
          { path := "a.txt", is_dir := false, size := 3,
            modified := some 9 }] : List FileEntry).length ∧
    ∀ fe ∈ ([{ path := "src", is_dir := true, size := 0,
               modified := none },
             { path := "a.txt", is_dir := false, size := 3,
               modified := some 9 }] : List FileEntry),
      ∃ w : WalkEntry, fe = mkFileEntry w ∧
        fe.path = pathDisplay w.rel ∧ w.rel ≠ [] ∧
        w.rel.getLast? = some w.name ∧
        strStartsWith w.name "." = false ∧
        ∀ pat ∈ ([".git", "node_modules", "target", "dist", "build"] :
          List String), strContainsSub w.name pat = false :=
  listing_excludes_hidden_and_ignored listFs [] 0 _ 2 (by rfl)


/-- Witness for C4 at `start=10, end=2, total=5`. -/
theorem resolve_fails_iff_crossed_witness :
    ∃ a b, (some (10 : Int)) = some a ∧ (some (2 : Int)) = some b ∧
      FsReadError.invalidLineRange 10 2 = .invalidLineRange a b :=
  (resolve_fails_iff_crossed.1 (some 10) (some 2) 5).2
    (.invalidLineRange 10 2) (by rfl)

end Contextinator
